import Mathlib

/-!
Verification of the test-result and coverage-report parsing pipeline of the
`vscode-dotnet` extension.

The definitions below are a shallow embedding of the TypeScript sources:

* `TestRunner.parseTestResults` (test-output scraper) from `src/testRunner.ts`;
* `CoverageProvider.parseLcovReport`, `CoverageProvider.parseCoverageFile`,
  `CoverageProvider.getOverallCoverage` and the `coverageData` map from
  `src/runDebugManager.ts`;
* `ConfigManager.getCoverageFormat` from `src/utils/configManager.ts`.

JavaScript strings are modelled as Lean `String` (a list of characters);
the handful of string primitives the source uses (`split('\n')`, `trim()`,
`includes`, `startsWith`, `endsWith`, `substring`) are given explicit
character-list implementations mirroring the JavaScript semantics, so that
every definition is executable by kernel reduction.  JavaScript numbers are
idealised as exact rationals (`ℚ`); none of the verified claims depend on
floating-point rounding.  The regular expressions used by the source are
small enough that their leftmost-match semantics is implemented directly;
each such function documents the regex it implements.

Input text is assumed to use `\n` line endings, as produced by the
source's `split('\n')`: in JavaScript a stray `\r` at the end of a line
makes the `$`-anchored marker regexes fail, an edge case outside every
claim and not modelled here; likewise only ASCII whitespace is considered.
-/

/-! ## Character-list string primitives (JavaScript semantics) -/

/-- JavaScript `s.split(sep)` for a one-character separator, on character
lists.  `split` of the empty string yields `[""]`, like JavaScript. -/
def splitOnChar (sep : Char) : List Char → List (List Char)
  | [] => [[]]
  | c :: t =>
    let r := splitOnChar sep t
    if c = sep then [] :: r else
      match r with
      | h :: t' => (c :: h) :: t'
      | [] => [[c]]

/-- JavaScript `s.split(sep)` on `String`. -/
def jsSplit (sep : Char) (s : String) : List String :=
  (splitOnChar sep s.data).map String.mk

/-- Remove leading whitespace (the `\s*` of an anchored regex). -/
def dropWs (cs : List Char) : List Char := cs.dropWhile (fun c => c.isWhitespace)

/-- JavaScript `s.trim()`: remove leading and trailing whitespace. -/
def trimChars (cs : List Char) : List Char :=
  ((cs.dropWhile fun c => c.isWhitespace).reverse.dropWhile fun c => c.isWhitespace).reverse

/-- JavaScript `s.trim()` on `String`. -/
def strTrim (s : String) : String := String.mk (trimChars s.data)

/-- JavaScript `s.includes(pat)` on character lists. -/
def listContains (pat : List Char) : List Char → Bool
  | [] => pat.isEmpty
  | c :: t => pat.isPrefixOf (c :: t) || listContains pat t

/-- JavaScript `s.includes(pat)`. -/
def strIncludes (s pat : String) : Bool := listContains pat.data s.data

/-- JavaScript `s.startsWith(pre)`. -/
def strStartsWith (s pre : String) : Bool := pre.data.isPrefixOf s.data

/-- JavaScript `s.endsWith(suf)`. -/
def strEndsWith (s suf : String) : Bool := suf.data.isSuffixOf s.data

/-- JavaScript `s.substring(n)`. -/
def strDropN (s : String) (n : Nat) : String := String.mk (s.data.drop n)

/-- Case-insensitive character comparison (the regex `i` flag; the labels
involved are ASCII). -/
def lowerEq (a b : Char) : Bool := a.toLower == b.toLower

/-- Case-insensitively strip `pat` from the front of `cs`, returning the
remainder on success. -/
def ciStrip : List Char → List Char → Option (List Char)
  | [], cs => some cs
  | _ :: _, [] => none
  | p :: ps, c :: cs => if lowerEq p c then ciStrip ps cs else none

/-! ## Test-output parser (`TestRunner.parseTestResults`) -/

inductive Outcome where
  | passed
  | failed
  | skipped
deriving DecidableEq

/-- The mutable `currentTest : Partial<TestResult>` accumulator. -/
structure PartialTest where
  name : Option String := none
  duration : Option ℚ := none
  errorMessage : Option String := none
  stackTrace : Option String := none
deriving DecidableEq

/-- A sealed test record (`results.push(currentTest as TestResult)` happens
only after `currentTest.outcome` has been assigned). -/
structure TestResult where
  name : Option String
  outcome : Outcome
  duration : Option ℚ
  errorMessage : Option String
  stackTrace : Option String
deriving DecidableEq

def sealRec (c : PartialTest) (oc : Outcome) : TestResult :=
  { name := c.name, outcome := oc, duration := c.duration,
    errorMessage := c.errorMessage, stackTrace := c.stackTrace }

/-- The terminal-marker tests of the scanner, in source order:
`line.includes('Passed!') || line.match(/^\s*✓\s+/)`, then
`line.includes('Failed!') || line.match(/^\s*✗\s+/)`, then
`line.includes('Skipped')`.  `glyphLine` implements the glyph regexes
(optional leading whitespace, the glyph, at least one whitespace). -/
def glyphLine (g : Char) (line : String) : Bool :=
  match dropWs line.data with
  | c :: d :: _ => c == g && d.isWhitespace
  | _ => false

def termOutcome (line : String) : Option Outcome :=
  if strIncludes line "Passed!" || glyphLine '✓' line then some .passed
  else if strIncludes line "Failed!" || glyphLine '✗' line then some .failed
  else if strIncludes line "Skipped" then some .skipped
  else none

/-- `line.match(/^\s*LABEL\s*(.+)$/i)` followed by `match[1].trim()`.
The regex matches exactly when something non-empty follows the label, and
(because the greedy `\s*` backtracks at most to leave one character for
`(.+)`) the trimmed capture equals the trimmed remainder after the label. -/
def lineMarker (label : String) (line : String) : Option String :=
  match ciStrip label.data (dropWs line.data) with
  | some rest => if rest.isEmpty then none else some (String.mk (trimChars rest))
  | none => none

/-- `line.match(/^\s*Stack Trace:/i)` (no capture group required). -/
def stackMarker (line : String) : Bool :=
  (ciStrip "stack trace:".data (dropWs line.data)).isSome

inductive DUnit where
  | msUnit
  | sUnit
deriving DecidableEq

def digitsToNat (ds : List Char) : Nat :=
  ds.foldl (fun a c => a * 10 + (c.toNat - '0'.toNat)) 0

/-- Value of `parseFloat` on `<intDs>.<fracDs>`, as an exact rational. -/
def numValue (intDs fracDs : List Char) : ℚ :=
  (digitsToNat intDs : ℚ) + (digitsToNat fracDs : ℚ) / (10 : ℚ) ^ fracDs.length

/-- Match of `/(\d+(?:\.\d+)?)\s*(ms|s)/` anchored at the start of `cs`.
For this pattern greedy matching needs no backtracking: shrinking a digit
run or dropping the optional fraction leaves a digit or a dot where `ms|s`
must start, and `\s*` never competes with `m`/`s`. -/
def matchNumUnitAt (cs : List Char) : Option (ℚ × DUnit) :=
  let p := cs.span (fun c => c.isDigit)
  if p.1.isEmpty then none else
  let q : List Char × List Char :=
    match p.2 with
    | '.' :: r =>
      let f := r.span (fun c => c.isDigit)
      if f.1.isEmpty then ([], p.2) else f
    | _ => ([], p.2)
  match q.2.dropWhile (fun c => c.isWhitespace) with
  | 'm' :: 's' :: _ => some (numValue p.1 q.1, .msUnit)
  | 's' :: _ => some (numValue p.1 q.1, .sUnit)
  | _ => none

/-- `durationStr.match(/(\d+(?:\.\d+)?)\s*(ms|s)/)`: leftmost match. -/
def searchNumUnit : List Char → Option (ℚ × DUnit)
  | [] => none
  | c :: t =>
    match matchNumUnitAt (c :: t) with
    | some v => some v
    | none => searchNumUnit t

/-- Classification of one line by the scanner's `else if` chain, with the
captured (trimmed) payload where the branch uses one. -/
inductive LineKind where
  | passedMark
  | failedMark
  | skippedMark
  | testName (nm : String)
  | testMethod (nm : String)
  | durationLine (txt : String)
  | errorMsgLine (txt : String)
  | stackTraceLine
  | other
deriving DecidableEq

/-- The marker branches tried after the three terminal-marker tests failed,
in source order: `Test Name:`, `Test Method:`, `Duration:`, `Error Message:`,
`Stack Trace:`. -/
def classifyMarkers (line : String) : LineKind :=
  match lineMarker "test name:" line with
  | some nm => .testName nm
  | none =>
    match lineMarker "test method:" line with
    | some nm => .testMethod nm
    | none =>
      match lineMarker "duration:" line with
      | some txt => .durationLine txt
      | none =>
        match lineMarker "error message:" line with
        | some txt => .errorMsgLine txt
        | none => if stackMarker line then .stackTraceLine else .other

def classify (line : String) : LineKind :=
  match termOutcome line with
  | some .passed => .passedMark
  | some .failed => .failedMark
  | some .skipped => .skippedMark
  | none => classifyMarkers line

/-- The update performed by the `Duration:` branch:
`durationMatch[2] === 's' ? value * 1000 : value`, leaving the field
unchanged when the inner regex fails. -/
def durationUpdate (txt : String) (old : Option ℚ) : Option ℚ :=
  match searchNumUnit (trimChars txt.data) with
  | some (v, .sUnit) => some (v * 1000)
  | some (v, .msUnit) => some v
  | none => old

/-- The verbatim bounded stack-trace capture: the loop
`for (let j = i + 1; j < lines.length && j < i + 20; j++)` collects at most
the 19 following lines, stopping at the first line whose `trim()` is empty. -/
def stackCapture (rest : List String) : String :=
  String.intercalate "\n" ((rest.take 19).takeWhile (fun s => !(trimChars s.data).isEmpty))

/-- The scanning loop of `parseTestResults`, one line at a time.  The stack
trace branch peeks ahead at the following lines without consuming them
(the source's inner loop does not advance `i`). -/
def processLines : List String → Option PartialTest → List TestResult
  | [], _ => []
  | line :: rest, cur =>
    match classify line with
    | .passedMark =>
      match cur with
      | some c => sealRec c .passed :: processLines rest none
      | none => processLines rest cur
    | .failedMark =>
      match cur with
      | some c => sealRec c .failed :: processLines rest none
      | none => processLines rest cur
    | .skippedMark =>
      match cur with
      | some c => sealRec c .skipped :: processLines rest none
      | none => processLines rest cur
    | .testName nm => processLines rest (some { name := some nm })
    | .testMethod nm =>
      match cur with
      | some c =>
        if c.name.getD "" = "" then processLines rest (some { c with name := some nm })
        else processLines rest (some c)
      | none => processLines rest cur
    | .durationLine txt =>
      match cur with
      | some c => processLines rest (some { c with duration := durationUpdate txt c.duration })
      | none => processLines rest cur
    | .errorMsgLine txt =>
      match cur with
      | some c => processLines rest (some { c with errorMessage := some txt })
      | none => processLines rest cur
    | .stackTraceLine =>
      match cur with
      | some c => processLines rest (some { c with stackTrace := some (stackCapture rest) })
      | none => processLines rest cur
    | .other => processLines rest cur

/-- `TestRunner.parseTestResults`. -/
def parseTestResults (output : String) : List TestResult :=
  processLines (jsSplit '\n' output) none

/-! ## Coverage model (`CoverageProvider`) -/

/-- One entry of `CoverageData.lines`. -/
structure CovLine where
  line : Nat
  covered : Bool
deriving DecidableEq

/-- The `CoverageData` interface (`coverage` is the percentage field). -/
structure CoverageData where
  filePath : String
  coverage : ℚ
  lines : List CovLine
deriving DecidableEq

/-- The `coverageData : Map<string, CoverageData>` store, as an
insertion-ordered association list (JavaScript `Map` iteration order). -/
abbrev CovStore := List (String × CoverageData)

/-- JavaScript `Map.set`: replace in place when the key is present,
otherwise append. -/
def mapSet (m : CovStore) (k : String) (v : CoverageData) : CovStore :=
  if m.any (fun p => p.1 == k) then m.map (fun p => if p.1 == k then (k, v) else p)
  else m ++ [(k, v)]

/-- JavaScript `Map.get`. -/
def mapGet (m : CovStore) (k : String) : Option CoverageData :=
  (m.find? (fun p => p.1 == k)).map Prod.snd

/-- Number of entries stored under key `k`. -/
def keyCount (m : CovStore) (k : String) : Nat :=
  m.countP (fun p => p.1 == k)

/-- `line.match(/^DA:(\d+),(\d+)$/)`, returning (line number, hits).
Both anchors are honoured: nothing may follow the second digit run. -/
def parseDA (line : String) : Option (Nat × Nat) :=
  match line.data with
  | 'D' :: 'A' :: ':' :: rest =>
    let p := rest.span (fun c => c.isDigit)
    if p.1.isEmpty then none else
    match p.2 with
    | ',' :: r2 =>
      let q := r2.span (fun c => c.isDigit)
      if q.1.isEmpty || !q.2.isEmpty then none
      else some (digitsToNat p.1, digitsToNat q.1)
    | _ => none
  | _ => none

/-- The state of the `parseLcovReport` loop: the two local mutables and the
`coverageData` store the loop writes into. -/
structure LcovState where
  currentFile : String
  currentCoverage : Option CoverageData
  store : CovStore
deriving DecidableEq

/-- The computation done at `end_of_record`: when the record tracks at least
one line, set `coverage` to `(covered / total) * 100`; otherwise leave the
record as initialised (coverage 0). -/
def closeCov (c : CoverageData) : CoverageData :=
  if 0 < c.lines.length then
    { c with coverage := ((c.lines.countP (fun l => l.covered) : ℚ) / (c.lines.length : ℚ)) * 100 }
  else c

/-- One iteration of the `parseLcovReport` loop. -/
def lcovStep (st : LcovState) (line : String) : LcovState :=
  if strStartsWith line "SF:" then
    { currentFile := strDropN line 3,
      currentCoverage := some { filePath := strDropN line 3, coverage := 0, lines := [] },
      store := st.store }
  else if strStartsWith line "DA:" then
    match st.currentCoverage with
    | some c =>
      match parseDA line with
      | some pr =>
        { st with currentCoverage := some { c with lines := c.lines ++ [⟨pr.1, decide (0 < pr.2)⟩] } }
      | none => st
    | none => st
  else if line = "end_of_record" then
    match st.currentCoverage with
    | some c =>
      { st with store := mapSet st.store st.currentFile (closeCov c), currentCoverage := none }
    | none => st
  else st

def parseLcovLines (lines : List String) (st : LcovState) : LcovState :=
  lines.foldl lcovStep st

/-- `CoverageProvider.parseLcovReport`, as a function from the report text
and the current store to the updated store. -/
def parseLcovReport (content : String) (store : CovStore) : CovStore :=
  (parseLcovLines (jsSplit '\n' content) ⟨"", none, store⟩).store

/-- A sequence of LCOV parses against the same store. -/
def runLcovParses (reports : List String) (store : CovStore) : CovStore :=
  reports.foldl (fun s r => parseLcovReport r s) store

/-- `CoverageProvider.getOverallCoverage`. -/
def getOverallCoverage (m : CovStore) : ℚ :=
  if m.length = 0 then 0
  else (m.map (fun p => p.2.coverage)).sum / (m.length : ℚ)

/-- The three coverage parser variants of `parseCoverageFile`. -/
inductive CoverageParserKind where
  | coberturaKind
  | jsonKind
  | lcovKind
deriving DecidableEq

/-- The dispatch chain of `CoverageProvider.parseCoverageFile`:
`format === 'cobertura' || filePath.endsWith('.xml')`, then
`format === 'json' || filePath.endsWith('.json')`, then
`format === 'lcov' || filePath.endsWith('.lcov')`; `none` means no parser
is invoked. -/
def parseCoverageFileDispatch (format : String) (filePath : String) : Option CoverageParserKind :=
  if format = "cobertura" || strEndsWith filePath ".xml" then some .coberturaKind
  else if format = "json" || strEndsWith filePath ".json" then some .jsonKind
  else if format = "lcov" || strEndsWith filePath ".lcov" then some .lcovKind
  else none

/-- The percentage law of a coverage record: its stored percentage is the
covered-line ratio times 100, and 0 for an empty line list. -/
def pctLaw (r : CoverageData) : Prop :=
  r.coverage =
    if r.lines.length = 0 then 0
    else ((r.lines.countP (fun l => l.covered) : ℚ) / (r.lines.length : ℚ)) * 100

/-- The `LineKind` constructor corresponding to a terminal outcome. -/
def termKind : Outcome → LineKind
  | .passed => .passedMark
  | .failed => .failedMark
  | .skipped => .skippedMark

/-! ## Helper lemmas -/

theorem classifyMarkers_ne_term (line : String) :
    classifyMarkers line ≠ .passedMark ∧ classifyMarkers line ≠ .failedMark ∧
      classifyMarkers line ≠ .skippedMark := by
  unfold classifyMarkers
  repeat' split
  all_goals simp

theorem processLines_no_term (ls : List String) :
    ∀ cur, (∀ l ∈ ls, termOutcome l = none) → processLines ls cur = [] := by
  induction ls with
  | nil => intro cur _; rfl
  | cons l rest ih =>
    intro cur h
    have hl : termOutcome l = none := h l (List.mem_cons_self l rest)
    have hr : ∀ x ∈ rest, termOutcome x = none := fun x hx => h x (List.mem_cons_of_mem l hx)
    have hcl : classify l = classifyMarkers l := by simp [classify, hl]
    cases hk : classifyMarkers l with
    | passedMark => exact absurd hk (classifyMarkers_ne_term l).1
    | failedMark => exact absurd hk (classifyMarkers_ne_term l).2.1
    | skippedMark => exact absurd hk (classifyMarkers_ne_term l).2.2
    | testName nm =>
      simp only [processLines, hcl, hk]
      exact ih _ hr
    | testMethod nm =>
      simp only [processLines, hcl, hk]
      cases cur with
      | none => exact ih _ hr
      | some c =>
        by_cases hn : c.name.getD "" = "" <;> simp only [hn, if_true, if_false] <;>
          exact ih _ hr
    | durationLine txt =>
      simp only [processLines, hcl, hk]
      cases cur <;> exact ih _ hr
    | errorMsgLine txt =>
      simp only [processLines, hcl, hk]
      cases cur <;> exact ih _ hr
    | stackTraceLine =>
      simp only [processLines, hcl, hk]
      cases cur <;> exact ih _ hr
    | other =>
      simp only [processLines, hcl, hk]
      exact ih _ hr

/-! ## Claim C1 — coverage format dispatch -/

/-- Claim C1, counterexample: with the configuration setting equal to
`lcov`, a file named `report.xml` is parsed by the cobertura (XML) parser,
not the LCOV parser, contradicting the claim that the explicit setting is
consulted first and wins over extension sniffing. -/
theorem coverage_dispatch_counterexample :
    parseCoverageFileDispatch "lcov" "report.xml" = some .coberturaKind ∧
    parseCoverageFileDispatch "lcov" "report.xml" ≠ some .lcovKind := by
  decide

/-- Claim C1 as amended: the dispatch tests the three variants in a fixed
order (cobertura, json, lcov), selecting a variant when the setting equals
its name or the file carries its extension; hence with the setting `lcov`
a file is parsed as LCOV exactly when its name ends in neither `.xml` nor
`.json`. -/
theorem coverage_dispatch_amended :
    ∀ fp : String,
      parseCoverageFileDispatch "lcov" fp =
        (if strEndsWith fp ".xml" then some .coberturaKind
         else if strEndsWith fp ".json" then some .jsonKind
         else some .lcovKind) := by
  intro fp
  simp +decide [parseCoverageFileDispatch]

/-! ## Claim C2 — bounded stack-trace capture -/

/-- Claim C2, counterexample: a `Stack Trace:` marker followed by twenty
non-blank lines captures only the first nineteen of them; the claimed
twenty-line capture is not what the parser stores. -/
theorem stackTrace_bound_counterexample :
    parseTestResults "Test Name: T\nStack Trace:\nL01\nL02\nL03\nL04\nL05\nL06\nL07\nL08\nL09\nL10\nL11\nL12\nL13\nL14\nL15\nL16\nL17\nL18\nL19\nL20\nPassed!" =
      [⟨some "T", Outcome.passed, none, none,
        some "L01\nL02\nL03\nL04\nL05\nL06\nL07\nL08\nL09\nL10\nL11\nL12\nL13\nL14\nL15\nL16\nL17\nL18\nL19"⟩] ∧
    parseTestResults "Test Name: T\nStack Trace:\nL01\nL02\nL03\nL04\nL05\nL06\nL07\nL08\nL09\nL10\nL11\nL12\nL13\nL14\nL15\nL16\nL17\nL18\nL19\nL20\nPassed!" ≠
      [⟨some "T", Outcome.passed, none, none,
        some "L01\nL02\nL03\nL04\nL05\nL06\nL07\nL08\nL09\nL10\nL11\nL12\nL13\nL14\nL15\nL16\nL17\nL18\nL19\nL20"⟩] := by
  decide

/-- Claim C2 as amended: a stack-trace marker seen while a record is open
collects up to the next nineteen lines verbatim, stopping early at the
first blank line, without sealing the open record (and is ignored when no
record is open). -/
theorem stackTrace_capture_semantics :
    (∀ line rest c, classify line = .stackTraceLine →
       processLines (line :: rest) (some c) =
         processLines rest (some { c with stackTrace := some (stackCapture rest) })) ∧
    (∀ line rest, classify line = .stackTraceLine →
       processLines (line :: rest) none = processLines rest none) ∧
    (∀ rest, stackCapture rest =
       String.intercalate "\n" ((rest.take 19).takeWhile (fun s => !(trimChars s.data).isEmpty))) := by
  refine ⟨?_, ?_, fun _ => rfl⟩
  · intro line rest c h
    simp only [processLines, h]
  · intro line rest h
    simp only [processLines, h]

/-- Witness for `stackTrace_capture_semantics` at a concrete input. -/
theorem stackTrace_capture_semantics_witness :
    classify "Stack Trace:" = LineKind.stackTraceLine ∧
    processLines ["Stack Trace:", "at Foo.Bar()", ""] (some ⟨none, none, none, none⟩) =
      processLines ["at Foo.Bar()", ""]
        (some ⟨none, none, none, some (stackCapture ["at Foo.Bar()", ""])⟩) :=
  ⟨by decide,
   stackTrace_capture_semantics.1 "Stack Trace:" ["at Foo.Bar()", ""] ⟨none, none, none, none⟩
     (by decide)⟩

/-! ## Claim C3 — test-name markers -/

/-- Claim C3, counterexample: a second `Test Name:` line replaces the open
record, so the already-set name `A` does not survive to the sealed record;
the parser returns name `B`, where the claim requires `A`. -/
theorem testName_overwrite_counterexample :
    parseTestResults "Test Name: A\nTest Name: B\nPassed!" =
      [⟨some "B", Outcome.passed, none, none, none⟩] ∧
    (parseTestResults "Test Name: A\nTest Name: B\nPassed!").map TestResult.name ≠ [some "A"] := by
  decide

/-- Claim C3 as amended: a `Test Name:` marker always starts a fresh record
bearing that name, discarding any open record (and with it any already-set
name); only the alternate `Test Method:` marker is conditional — it fills
the name solely when a record is open and its name is unset or empty. -/
theorem testName_marker_semantics :
    (∀ line nm rest cur, classify line = .testName nm →
       processLines (line :: rest) cur = processLines rest (some { name := some nm })) ∧
    (∀ line nm rest c, classify line = .testMethod nm →
       processLines (line :: rest) (some c) =
         processLines rest
           (some (if c.name.getD "" = "" then { c with name := some nm } else c))) ∧
    (∀ line nm rest, classify line = .testMethod nm →
       processLines (line :: rest) none = processLines rest none) := by
  refine ⟨?_, ?_, ?_⟩
  · intro line nm rest cur h
    simp only [processLines, h]
  · intro line nm rest c h
    simp only [processLines, h]
    by_cases hn : c.name.getD "" = "" <;> simp [hn]
  · intro line nm rest h
    simp only [processLines, h]

/-- Witness for `testName_marker_semantics`: a `Test Method:` line does not
overwrite an already-set non-empty name. -/
theorem testName_marker_semantics_witness :
    classify "Test Method: M" = LineKind.testMethod "M" ∧
    processLines ["Test Method: M"] (some ⟨some "A", none, none, none⟩) =
      processLines []
        (some (if (Option.getD (some "A") "") = "" then
                 ⟨some "M", none, none, none⟩ else ⟨some "A", none, none, none⟩)) :=
  ⟨by decide,
   testName_marker_semantics.2.1 "Test Method: M" "M" [] ⟨some "A", none, none, none⟩ (by decide)⟩

/-! ## Claim C7 — unsealed records are dropped -/

/-- Claim C7: a record still open when the input ends is discarded: any
input whose lines contain no terminal marker parses to the empty sequence;
in particular a name marker followed by end-of-input yields no records. -/
theorem unsealed_record_discarded :
    (∀ ls cur, (∀ l ∈ ls, termOutcome l = none) → processLines ls cur = []) ∧
    parseTestResults "Test Name: SomeTest" = [] := by
  exact ⟨fun ls cur h => processLines_no_term ls cur h, by decide⟩

/-- Witness for `unsealed_record_discarded` at a concrete input. -/
theorem unsealed_record_discarded_witness :
    (∀ l ∈ ["Test Name: A", "Duration: 3ms"], termOutcome l = none) ∧
    processLines ["Test Name: A", "Duration: 3ms"] none = [] :=
  ⟨by decide, unsealed_record_discarded.1 ["Test Name: A", "Duration: 3ms"] none (by decide)⟩

/-! ## Claim C8 — duration extraction -/

/-- Claim C8: a duration marker line seen while a record is open updates
the duration via the number-plus-unit search, with unit ms stored
unchanged, unit s multiplied by 1000, and the field left untouched (hence
absent if it was absent) when no number-plus-unit occurs in the text;
illustrated end to end on `12ms`, `2.5 s` and malformed `fast`. -/
theorem duration_marker_semantics :
    (∀ line txt rest c, classify line = .durationLine txt →
       processLines (line :: rest) (some c) =
         processLines rest (some { c with duration := durationUpdate txt c.duration })) ∧
    (∀ txt v old, searchNumUnit (trimChars txt.data) = some (v, DUnit.msUnit) →
       durationUpdate txt old = some v) ∧
    (∀ txt v old, searchNumUnit (trimChars txt.data) = some (v, DUnit.sUnit) →
       durationUpdate txt old = some (v * 1000)) ∧
    (∀ txt old, searchNumUnit (trimChars txt.data) = none → durationUpdate txt old = old) ∧
    parseTestResults "Test Name: T\nDuration: 12ms\nPassed!" =
      [⟨some "T", Outcome.passed, some 12, none, none⟩] ∧
    parseTestResults "Test Name: T\nDuration: 2.5 s\nPassed!" =
      [⟨some "T", Outcome.passed, some 2500, none, none⟩] ∧
    parseTestResults "Test Name: T\nDuration: fast\nPassed!" =
      [⟨some "T", Outcome.passed, none, none, none⟩] := by
  refine ⟨?_, ?_, ?_, ?_, ?_, ?_, ?_⟩
  · intro line txt rest c h
    simp only [processLines, h]
  · intro txt v old h
    simp [durationUpdate, h]
  · intro txt v old h
    simp [durationUpdate, h]
  · intro txt old h
    simp [durationUpdate, h]
  · simp +decide [parseTestResults, jsSplit, splitOnChar, processLines, classify, termOutcome,
      classifyMarkers, lineMarker, ciStrip, dropWs, trimChars, lowerEq, strIncludes, listContains,
      glyphLine, durationUpdate, searchNumUnit, matchNumUnitAt, numValue, digitsToNat, sealRec]
  · simp +decide [parseTestResults, jsSplit, splitOnChar, processLines, classify, termOutcome,
      classifyMarkers, lineMarker, ciStrip, dropWs, trimChars, lowerEq, strIncludes, listContains,
      glyphLine, durationUpdate, searchNumUnit, matchNumUnitAt, numValue, digitsToNat, sealRec]
    norm_num
  · simp +decide [parseTestResults, jsSplit, splitOnChar, processLines, classify, termOutcome,
      classifyMarkers, lineMarker, ciStrip, dropWs, trimChars, lowerEq, strIncludes, listContains,
      glyphLine, durationUpdate, searchNumUnit, matchNumUnitAt, numValue, digitsToNat, sealRec]

/-- Witness for `duration_marker_semantics` at a concrete input. -/
theorem duration_marker_semantics_witness :
    classify "Duration: 5ms" = LineKind.durationLine "5ms" ∧
    processLines ["Duration: 5ms"] (some ⟨some "T", none, none, none⟩) =
      processLines []
        (some ⟨some "T", durationUpdate "5ms" none, none, none⟩) :=
  ⟨by decide,
   duration_marker_semantics.1 "Duration: 5ms" "5ms" [] ⟨some "T", none, none, none⟩ (by decide)⟩

/-! ## Claim C10 — terminal markers run before name markers -/

/-- Claim C10: the terminal-marker tests run before the name-marker tests,
so any line whose terminal test fires — including a `Test Name:` line whose
text contains `Skipped`, `Passed!` or `Failed!` — seals the open record (or
is ignored when none is open) and never starts a record or sets a name;
illustrated on `Test Name: SkippedX`, which seals the record named `A` as
skipped. -/
theorem terminal_marker_priority :
    (∀ line oc, termOutcome line = some oc → classify line = termKind oc) ∧
    (∀ line oc rest c, classify line = termKind oc →
       processLines (line :: rest) (some c) = sealRec c oc :: processLines rest none) ∧
    (∀ line oc rest, classify line = termKind oc →
       processLines (line :: rest) none = processLines rest none) ∧
    parseTestResults "Test Name: A\nTest Name: SkippedX\nPassed!" =
      [⟨some "A", Outcome.skipped, none, none, none⟩] := by
  refine ⟨?_, ?_, ?_, by decide⟩
  · intro line oc h
    cases oc <;> simp [classify, h, termKind]
  · intro line oc rest c h
    cases oc <;> simp only [termKind] at h <;> simp only [processLines, h]
  · intro line oc rest h
    cases oc <;> simp only [termKind] at h <;> simp only [processLines, h]

/-- Witness for `terminal_marker_priority`: a name-marker-shaped line whose
name text contains `Skipped` is classified as a terminal marker and seals
the open record. -/
theorem terminal_marker_priority_witness :
    termOutcome "Test Name: SkippedThing" = some Outcome.skipped ∧
    classify "Test Name: SkippedThing" = termKind Outcome.skipped ∧
    processLines ["Test Name: SkippedThing"] (some ⟨some "A", none, none, none⟩) =
      sealRec ⟨some "A", none, none, none⟩ Outcome.skipped :: processLines [] none :=
  ⟨by decide, by decide,
   terminal_marker_priority.2.1 "Test Name: SkippedThing" Outcome.skipped []
     ⟨some "A", none, none, none⟩ (by decide)⟩

/-! ## Claim C6 — overall coverage is the unweighted mean -/

/-- Claim C6: `getOverallCoverage` returns 0 on an empty store, otherwise
the unweighted arithmetic mean of the stored percentages; it depends only
on the percentage fields (not on any record's line list); two records with
percentages 100 and 50 give 75 regardless of their line counts. -/
theorem overall_coverage_mean :
    (∀ m : CovStore, getOverallCoverage m =
       if m.length = 0 then 0 else (m.map (fun p => p.2.coverage)).sum / (m.length : ℚ)) ∧
    (∀ m₁ m₂ : CovStore,
       m₁.map (fun p => p.2.coverage) = m₂.map (fun p => p.2.coverage) →
       getOverallCoverage m₁ = getOverallCoverage m₂) ∧
    (∀ k₁ k₂ r₁ r₂, r₁.coverage = 100 → r₂.coverage = 50 →
       getOverallCoverage [(k₁, r₁), (k₂, r₂)] = 75) := by
  refine ⟨fun m => rfl, ?_, ?_⟩
  · intro m₁ m₂ h
    have hlen : m₁.length = m₂.length := by
      have h' := congrArg List.length h
      simpa using h'
    unfold getOverallCoverage
    rw [h, hlen]
  · intro k₁ k₂ r₁ r₂ h₁ h₂
    simp [getOverallCoverage, h₁, h₂]
    norm_num

/-- Witness for `overall_coverage_mean`: records with different line counts
but percentages 100 and 50 average to 75. -/
theorem overall_coverage_mean_witness :
    (CoverageData.mk "a" 100 [⟨1, true⟩, ⟨2, true⟩, ⟨3, true⟩]).coverage = 100 ∧
    (CoverageData.mk "b" 50 [⟨1, true⟩, ⟨2, false⟩]).coverage = 50 ∧
    getOverallCoverage
      [("a", CoverageData.mk "a" 100 [⟨1, true⟩, ⟨2, true⟩, ⟨3, true⟩]),
       ("b", CoverageData.mk "b" 50 [⟨1, true⟩, ⟨2, false⟩])] = 75 :=
  ⟨rfl, rfl,
   overall_coverage_mean.2.2 "a" "b"
     (CoverageData.mk "a" 100 [⟨1, true⟩, ⟨2, true⟩, ⟨3, true⟩])
     (CoverageData.mk "b" 50 [⟨1, true⟩, ⟨2, false⟩]) rfl rfl⟩



/-! ## Helper lemmas for the coverage store -/

theorem find?_map_set (k : String) (v : CoverageData) :
    ∀ m : CovStore, m.any (fun p => p.1 == k) = true →
      (m.map (fun p => if p.1 == k then (k, v) else p)).find? (fun p => p.1 == k) =
        some (k, v) := by
  intro m
  induction m with
  | nil => intro h; simp at h
  | cons p t ih =>
    intro h
    by_cases hp : p.1 = k
    · have hb : (p.1 == k) = true := beq_iff_eq.mpr hp
      simp only [List.map_cons, hb, if_pos rfl]
      rw [List.find?_cons_of_pos _ (by simp)]
      simp
    · have hb : (p.1 == k) = false := beq_eq_false_iff_ne.mpr hp
      have h' : t.any (fun q => q.1 == k) = true := by simpa [hb] using h
      simp only [List.map_cons, hb]
      rw [if_neg (by simp), List.find?_cons_of_neg _ (by simp [hb])]
      exact ih h'

theorem find?_append_set (k : String) (v : CoverageData) :
    ∀ m : CovStore, m.any (fun p => p.1 == k) = false →
      (m ++ [(k, v)]).find? (fun p => p.1 == k) = some (k, v) := by
  intro m
  induction m with
  | nil =>
    intro _
    rw [List.nil_append, List.find?_cons_of_pos _ (by simp)]
  | cons p t ih =>
    intro h
    have hb : (p.1 == k) = false := by
      by_cases hp : p.1 = k
      · exfalso; simp [hp] at h
      · exact beq_eq_false_iff_ne.mpr hp
    have h' : t.any (fun q => q.1 == k) = false := by simpa [hb] using h
    rw [List.cons_append, List.find?_cons_of_neg _ (by simp [hb])]
    exact ih h'

theorem find?_map_ne (k k' : String) (v : CoverageData) (hk : k' ≠ k) :
    ∀ m : CovStore,
      (m.map (fun p => if p.1 == k then (k, v) else p)).find? (fun p => p.1 == k') =
        m.find? (fun p => p.1 == k') := by
  intro m
  have hkb : (k == k') = false := beq_eq_false_iff_ne.mpr (fun hh => hk hh.symm)
  induction m with
  | nil => rfl
  | cons p t ih =>
    by_cases hp : p.1 = k
    · have hb : (p.1 == k) = true := beq_iff_eq.mpr hp
      have hpb : (p.1 == k') = false := by rw [hp]; exact hkb
      simp only [List.map_cons, hb, if_pos rfl]
      rw [List.find?_cons_of_neg _ (by simp [hkb]), List.find?_cons_of_neg _ (by simp [hpb])]
      exact ih
    · have hb : (p.1 == k) = false := beq_eq_false_iff_ne.mpr hp
      simp only [List.map_cons, hb]
      rw [if_neg (by simp)]
      by_cases hp' : p.1 = k'
      · have hpb : (p.1 == k') = true := beq_iff_eq.mpr hp'
        rw [List.find?_cons_of_pos _ (by simp [hpb]), List.find?_cons_of_pos _ (by simp [hpb])]
      · have hpb : (p.1 == k') = false := beq_eq_false_iff_ne.mpr hp'
        rw [List.find?_cons_of_neg _ (by simp [hpb]), List.find?_cons_of_neg _ (by simp [hpb])]
        exact ih

theorem find?_append_ne (k k' : String) (v : CoverageData) (hk : k' ≠ k) (m : CovStore) :
    (m ++ [(k, v)]).find? (fun p => p.1 == k') = m.find? (fun p => p.1 == k') := by
  have hkb : (k == k') = false := beq_eq_false_iff_ne.mpr (fun hh => hk hh.symm)
  rw [List.find?_append]
  have h1 : List.find? (fun p => p.1 == k') [(k, v)] = none := by
    rw [List.find?_cons_of_neg _ (by simp [hkb])]
    rfl
  rw [h1, Option.or_none]

theorem mapGet_mapSet_self (m : CovStore) (k : String) (v : CoverageData) :
    mapGet (mapSet m k v) k = some v := by
  unfold mapGet mapSet
  by_cases h : m.any (fun p => p.1 == k)
  · rw [if_pos h, find?_map_set k v m h]
    rfl
  · rw [if_neg h, find?_append_set k v m (eq_false_of_ne_true h)]
    rfl

theorem mapGet_mapSet_ne (m : CovStore) (k k' : String) (v : CoverageData) (hk : k' ≠ k) :
    mapGet (mapSet m k v) k' = mapGet m k' := by
  unfold mapGet mapSet
  by_cases h : m.any (fun p => p.1 == k)
  · rw [if_pos h, find?_map_ne k k' v hk m]
  · rw [if_neg h, find?_append_ne k k' v hk m]

theorem countP_map_set (k k' : String) (v : CoverageData) :
    ∀ m : CovStore,
      (m.map (fun p => if p.1 == k then (k, v) else p)).countP (fun p => p.1 == k') =
        m.countP (fun p => p.1 == k') := by
  intro m
  induction m with
  | nil => rfl
  | cons p t ih =>
    by_cases hp : p.1 = k
    · have hb : (p.1 == k) = true := beq_iff_eq.mpr hp
      have hsame : ((k, v).1 == k') = (p.1 == k') := by rw [hp]
      simp only [List.map_cons, hb, List.countP_cons, ih]
      simp [hsame]
    · have hb : (p.1 == k) = false := beq_eq_false_iff_ne.mpr hp
      simp only [List.map_cons, hb]
      rw [if_neg (by simp)]
      simp only [List.countP_cons, ih]

theorem keyCount_zero_of_not_any (m : CovStore) (k : String)
    (h : m.any (fun p => p.1 == k) = false) : keyCount m k = 0 := by
  unfold keyCount
  rw [List.countP_eq_zero]
  exact List.any_eq_false.mp h

theorem keyCount_mapSet_le (m : CovStore) (k : String) (v : CoverageData)
    (h : ∀ k0, keyCount m k0 ≤ 1) : ∀ k0, keyCount (mapSet m k v) k0 ≤ 1 := by
  intro k0
  unfold mapSet
  by_cases hany : m.any (fun p => p.1 == k)
  · rw [if_pos hany]
    unfold keyCount
    rw [countP_map_set k k0 v m]
    exact h k0
  · rw [if_neg hany]
    unfold keyCount
    rw [List.countP_append]
    by_cases hk : k0 = k
    · subst hk
      have h0 : keyCount m k0 = 0 := keyCount_zero_of_not_any m k0 (eq_false_of_ne_true hany)
      unfold keyCount at h0
      rw [h0, List.countP_cons]
      simp
    · have hkb : ((k, v).1 == k0) = false := beq_eq_false_iff_ne.mpr (fun hh => hk hh.symm)
      rw [List.countP_cons]
      simp only [hkb, if_false, List.countP_nil]
      simpa using h k0

theorem keyCount_pos_of_mapGet (m : CovStore) (k : String) (v : CoverageData)
    (h : mapGet m k = some v) : 1 ≤ keyCount m k := by
  unfold mapGet at h
  cases hf : m.find? (fun p => p.1 == k) with
  | none => rw [hf] at h; simp at h
  | some p =>
    have hmem := List.mem_of_find?_eq_some hf
    have hpk := List.find?_some hf
    unfold keyCount
    have hpos : 0 < m.countP (fun p => p.1 == k) :=
      List.countP_pos_iff.mpr ⟨p, hmem, hpk⟩
    omega

/-- Case analysis of one LCOV loop iteration: an `SF:` line resets the
in-progress slot, a parsed `DA:` line appends to it, `end_of_record` with an
open slot writes the closed record into the store, and every other line
leaves the state unchanged.  The store argument is universally quantified in
each case because no branch reads it. -/
theorem lcovStep_cases (cf : String) (cc : Option CoverageData) (l : String) :
    (strStartsWith l "SF:" = true ∧
       ∀ s : CovStore, lcovStep ⟨cf, cc, s⟩ l =
         ⟨strDropN l 3, some ⟨strDropN l 3, 0, []⟩, s⟩) ∨
    (∃ (c : CoverageData) (pr : Nat × Nat), cc = some c ∧
       ∀ s : CovStore, lcovStep ⟨cf, cc, s⟩ l =
         ⟨cf, some { c with lines := c.lines ++ [⟨pr.1, decide (0 < pr.2)⟩] }, s⟩) ∨
    (∃ c, cc = some c ∧ l = "end_of_record" ∧
       ∀ s : CovStore, lcovStep ⟨cf, cc, s⟩ l = ⟨cf, none, mapSet s cf (closeCov c)⟩) ∨
    (∀ s : CovStore, lcovStep ⟨cf, cc, s⟩ l = ⟨cf, cc, s⟩) := by
  by_cases hSF : strStartsWith l "SF:" = true
  · exact Or.inl ⟨hSF, fun s => by simp [lcovStep, hSF]⟩
  · by_cases hDA : strStartsWith l "DA:" = true
    · cases cc with
      | none =>
        refine Or.inr (Or.inr (Or.inr (fun s => ?_)))
        simp [lcovStep, hSF, hDA]
      | some c =>
        cases hpd : parseDA l with
        | none =>
          refine Or.inr (Or.inr (Or.inr (fun s => ?_)))
          simp [lcovStep, hSF, hDA, hpd]
        | some pr =>
          refine Or.inr (Or.inl ⟨c, pr, rfl, fun s => ?_⟩)
          simp [lcovStep, hSF, hDA, hpd]
    · by_cases hE : l = "end_of_record"
      · cases cc with
        | none =>
          refine Or.inr (Or.inr (Or.inr (fun s => ?_)))
          unfold lcovStep
          rw [if_neg hSF, if_neg hDA, if_pos hE]
        | some c =>
          refine Or.inr (Or.inr (Or.inl ⟨c, rfl, hE, fun s => ?_⟩))
          unfold lcovStep
          rw [if_neg hSF, if_neg hDA, if_pos hE]
      · refine Or.inr (Or.inr (Or.inr (fun s => ?_)))
        simp [lcovStep, hSF, hDA, hE]

theorem parseLcovLines_cons (l : String) (ls : List String) (st : LcovState) :
    parseLcovLines (l :: ls) st = parseLcovLines ls (lcovStep st l) := rfl

theorem parseLcovLines_append (xs ys : List String) (st : LcovState) :
    parseLcovLines (xs ++ ys) st = parseLcovLines ys (parseLcovLines xs st) := by
  unfold parseLcovLines
  rw [List.foldl_append]

theorem parseLcovLines_singleton (l : String) (st : LcovState) :
    parseLcovLines [l] st = lcovStep st l := rfl

/-- Lookup agreement between two runs of the LCOV loop that differ only in
their starting store: either the loop wrote the key in both runs (the same
value, since the writes do not read the store), or it wrote it in neither. -/
theorem parseLcovLines_get_agree (ls : List String) :
    ∀ cf cc s₁ s₂ k,
      (mapGet (parseLcovLines ls ⟨cf, cc, s₁⟩).store k =
         mapGet (parseLcovLines ls ⟨cf, cc, s₂⟩).store k) ∨
      (mapGet (parseLcovLines ls ⟨cf, cc, s₁⟩).store k = mapGet s₁ k ∧
       mapGet (parseLcovLines ls ⟨cf, cc, s₂⟩).store k = mapGet s₂ k) := by
  induction ls with
  | nil => intro cf cc s₁ s₂ k; exact Or.inr ⟨rfl, rfl⟩
  | cons l ls ih =>
    intro cf cc s₁ s₂ k
    rw [parseLcovLines_cons, parseLcovLines_cons]
    rcases lcovStep_cases cf cc l with ⟨_, hstep⟩ | ⟨c, pr, _, hstep⟩ | ⟨c, _, _, hstep⟩ | hstep
    · rw [hstep s₁, hstep s₂]; exact ih _ _ s₁ s₂ k
    · rw [hstep s₁, hstep s₂]; exact ih _ _ s₁ s₂ k
    · rw [hstep s₁, hstep s₂]
      rcases ih cf none (mapSet s₁ cf (closeCov c)) (mapSet s₂ cf (closeCov c)) k with h | ⟨h1, h2⟩
      · exact Or.inl h
      · by_cases hk : k = cf
        · subst hk
          exact Or.inl (by rw [h1, h2, mapGet_mapSet_self, mapGet_mapSet_self])
        · exact Or.inr ⟨by rw [h1, mapGet_mapSet_ne _ _ _ _ hk],
            by rw [h2, mapGet_mapSet_ne _ _ _ _ hk]⟩
    · rw [hstep s₁, hstep s₂]; exact ih _ _ s₁ s₂ k

/-- The LCOV loop preserves at-most-one-entry-per-key in the store. -/
theorem parseLcovLines_keyCount (ls : List String) :
    ∀ cf cc s, (∀ k, keyCount s k ≤ 1) →
      ∀ k, keyCount (parseLcovLines ls ⟨cf, cc, s⟩).store k ≤ 1 := by
  induction ls with
  | nil => intro cf cc s h k; exact h k
  | cons l ls ih =>
    intro cf cc s h k
    rw [parseLcovLines_cons]
    rcases lcovStep_cases cf cc l with ⟨_, hstep⟩ | ⟨c, pr, _, hstep⟩ | ⟨c, _, _, hstep⟩ | hstep
    · rw [hstep s]; exact ih _ _ s h k
    · rw [hstep s]; exact ih _ _ s h k
    · rw [hstep s]; exact ih _ _ _ (keyCount_mapSet_le s cf (closeCov c) h) k
    · rw [hstep s]; exact ih _ _ s h k

theorem mem_mapSet (m : CovStore) (k : String) (v : CoverageData) :
    ∀ p ∈ mapSet m k v, p ∈ m ∨ p.2 = v := by
  intro p hp
  unfold mapSet at hp
  by_cases h : m.any (fun q => q.1 == k)
  · rw [if_pos h] at hp
    rcases List.mem_map.mp hp with ⟨q, hq, hqe⟩
    by_cases hqk : q.1 = k
    · right
      rw [← hqe]
      simp [beq_iff_eq.mpr hqk]
    · left
      have hred : (if q.1 == k then (k, v) else q) = q := by
        rw [if_neg]
        simp [beq_eq_false_iff_ne.mpr hqk]
      rw [← hqe, hred]
      exact hq
  · rw [if_neg h] at hp
    rcases List.mem_append.mp hp with h1 | h1
    · exact Or.inl h1
    · right
      rw [List.mem_singleton.mp h1]

theorem closeCov_pctLaw (c : CoverageData) (h : c.coverage = 0) : pctLaw (closeCov c) := by
  unfold closeCov pctLaw
  by_cases hl : 0 < c.lines.length
  · rw [if_pos hl]
    simp [Nat.pos_iff_ne_zero.mp hl]
  · rw [if_neg hl]
    have h0 : c.lines.length = 0 := Nat.eq_zero_of_not_pos hl
    simp [h0, h]

/-- Every record the LCOV loop stores obeys the percentage law, provided the
records already in the store do and any open record still has its initial
percentage 0. -/
theorem parseLcovLines_pctLaw (ls : List String) :
    ∀ cf cc s,
      (∀ p ∈ s, pctLaw (Prod.snd p)) →
      (∀ c, cc = some c → c.coverage = 0) →
      ∀ p ∈ (parseLcovLines ls ⟨cf, cc, s⟩).store, pctLaw (Prod.snd p) := by
  induction ls with
  | nil => intro cf cc s hs _; exact hs
  | cons l ls ih =>
    intro cf cc s hs hc
    rw [parseLcovLines_cons]
    rcases lcovStep_cases cf cc l with ⟨_, hstep⟩ | ⟨c, pr, hcc, hstep⟩ | ⟨c, hcc, _, hstep⟩ | hstep
    · rw [hstep s]
      exact ih _ _ s hs (fun c hc' => by cases hc'; rfl)
    · rw [hstep s]
      refine ih _ _ s hs (fun c' hc' => ?_)
      cases hc'
      exact hc c hcc
    · rw [hstep s]
      refine ih _ _ _ (fun p hp => ?_) (fun c' hc' => by cases hc')
      rcases mem_mapSet s cf (closeCov c) p hp with h1 | h1
      · exact hs p h1
      · rw [h1]
        exact closeCov_pctLaw c (hc c hcc)
    · rw [hstep s]
      exact ih _ _ s hs hc

/-- While scanning lines none of which is an `SF:` line for path `a`, the
loop never creates a store entry for `a` (and the open record, if any, is
not for `a`). -/
theorem parseLcovLines_avoid (a : String) (ls : List String) :
    ∀ cf cc s,
      (∀ l ∈ ls, ¬(strStartsWith l "SF:" = true ∧ strDropN l 3 = a)) →
      mapGet s a = none →
      (∀ c, cc = some c → cf ≠ a) →
      mapGet (parseLcovLines ls ⟨cf, cc, s⟩).store a = none := by
  induction ls with
  | nil => intro cf cc s _ hs _; exact hs
  | cons l ls ih =>
    intro cf cc s hl hs hcf
    have hl1 : ¬(strStartsWith l "SF:" = true ∧ strDropN l 3 = a) :=
      hl l (List.mem_cons_self l ls)
    have hl' : ∀ x ∈ ls, ¬(strStartsWith x "SF:" = true ∧ strDropN x 3 = a) :=
      fun x hx => hl x (List.mem_cons_of_mem l hx)
    rw [parseLcovLines_cons]
    rcases lcovStep_cases cf cc l with ⟨hsf, hstep⟩ | ⟨c, pr, hcc, hstep⟩ | ⟨c, hcc, _, hstep⟩ | hstep
    · rw [hstep s]
      refine ih _ _ s hl' hs (fun c _ hda => ?_)
      exact hl1 ⟨hsf, hda⟩
    · rw [hstep s]
      exact ih _ _ s hl' hs (fun c' _ => hcf c hcc)
    · rw [hstep s]
      refine ih _ _ _ hl' ?_ (fun c' hc' => by cases hc')
      have hne : a ≠ cf := fun hh => (hcf c hcc) hh.symm
      rw [mapGet_mapSet_ne s cf a (closeCov c) hne]
      exact hs
    · rw [hstep s]
      exact ih _ _ s hl' hs hcf

/-- Without an `end_of_record` line the loop never writes to the store. -/
theorem parseLcovLines_noEor (ls : List String) :
    ∀ st : LcovState, (∀ l ∈ ls, l ≠ "end_of_record") →
      (parseLcovLines ls st).store = st.store := by
  induction ls with
  | nil => intro st _; rfl
  | cons l ls ih =>
    intro st h
    obtain ⟨cf, cc, s⟩ := st
    have h1 : l ≠ "end_of_record" := h l (List.mem_cons_self l ls)
    have h' : ∀ x ∈ ls, x ≠ "end_of_record" := fun x hx => h x (List.mem_cons_of_mem l hx)
    rw [parseLcovLines_cons]
    rcases lcovStep_cases cf cc l with ⟨_, hstep⟩ | ⟨c, pr, _, hstep⟩ | ⟨c, _, hE, _⟩ | hstep
    · rw [hstep s]; exact ih _ h'
    · rw [hstep s]; exact ih _ h'
    · exact absurd hE h1
    · rw [hstep s]; exact ih _ h'

/-- An `SF:` line, built explicitly from a path, resets the in-progress
slot to that path and keeps the store. -/
theorem lcovStep_sf (st : LcovState) (x : String) :
    lcovStep st (String.mk ('S' :: 'F' :: ':' :: x.data)) = ⟨x, some ⟨x, 0, []⟩, st.store⟩ := by
  have hsf : strStartsWith (String.mk ('S' :: 'F' :: ':' :: x.data)) "SF:" = true := by
    simp [strStartsWith, List.isPrefixOf]
  have hdrop : strDropN (String.mk ('S' :: 'F' :: ':' :: x.data)) 3 = x := rfl
  simp [lcovStep, hsf, hdrop]

/-! ## Claim C4 — LCOV percentage derivation -/

/-- Claim C4: every record stored by an LCOV parse has
`percentage = covered / total * 100`, and 0 (a plain number, there is no
NaN in this arithmetic) when it tracks zero lines. -/
theorem lcov_percentage_law (content : String) (r : CoverageData)
    (h : r ∈ (parseLcovReport content []).map Prod.snd) : pctLaw r := by
  unfold parseLcovReport at h
  rcases List.mem_map.mp h with ⟨p, hp, hpe⟩
  have hlaw := parseLcovLines_pctLaw (jsSplit '\n' content) "" none []
    (fun q hq => absurd hq (List.not_mem_nil q)) (fun c hc => by cases hc) p hp
  rw [← hpe]
  exact hlaw

/-- Witness for `lcov_percentage_law`: the record parsed from lines
`{1,covered},{2,uncovered},{3,covered}` carries percentage `2/3 * 100`. -/
theorem lcov_percentage_law_witness :
    CoverageData.mk "f" ((2 : ℚ) / 3 * 100) [⟨1, true⟩, ⟨2, false⟩, ⟨3, true⟩] ∈
      (parseLcovReport "SF:f\nDA:1,1\nDA:2,0\nDA:3,1\nend_of_record" []).map Prod.snd ∧
    pctLaw (CoverageData.mk "f" ((2 : ℚ) / 3 * 100) [⟨1, true⟩, ⟨2, false⟩, ⟨3, true⟩]) := by
  have h : CoverageData.mk "f" ((2 : ℚ) / 3 * 100) [⟨1, true⟩, ⟨2, false⟩, ⟨3, true⟩] ∈
      (parseLcovReport "SF:f\nDA:1,1\nDA:2,0\nDA:3,1\nend_of_record" []).map Prod.snd := by
    simp +decide [parseLcovReport, parseLcovLines, jsSplit, splitOnChar, lcovStep, strStartsWith,
      strDropN, parseDA, digitsToNat, closeCov, mapSet, mapGet]
  exact ⟨h, lcov_percentage_law _ _ h⟩

/-! ## Claim C5 — unique keys and last-write-wins -/

/-- Claim C5: after any sequence of LCOV parses starting from the empty
store, the store holds at most one record per file path; and when a second
report describes file `F`, parsing it after any first report leaves exactly
one record for `F`, equal to what parsing the second report alone would
store (last write wins, no merging). -/
theorem coverage_store_unique_lww :
    (∀ (reports : List String) (k : String), keyCount (runLcovParses reports []) k ≤ 1) ∧
    (∀ (r₁ r₂ F : String) (rec : CoverageData),
       mapGet (parseLcovReport r₂ []) F = some rec →
       mapGet (parseLcovReport r₂ (parseLcovReport r₁ [])) F = some rec ∧
       keyCount (parseLcovReport r₂ (parseLcovReport r₁ [])) F = 1) := by
  have hrep : ∀ (r : String) (s : CovStore), (∀ k, keyCount s k ≤ 1) →
      ∀ k, keyCount (parseLcovReport r s) k ≤ 1 := by
    intro r s hs k
    exact parseLcovLines_keyCount (jsSplit '\n' r) "" none s hs k
  constructor
  · have hrun : ∀ (reports : List String) (s : CovStore), (∀ k, keyCount s k ≤ 1) →
        ∀ k, keyCount (runLcovParses reports s) k ≤ 1 := by
      intro reports
      induction reports with
      | nil => intro s hs k; exact hs k
      | cons r rs ih => intro s hs k; exact ih (parseLcovReport r s) (hrep r s hs) k
    exact fun reports k => hrun reports [] (fun k0 => by simp [keyCount]) k
  · intro r₁ r₂ F rec h
    have hmain : mapGet (parseLcovReport r₂ (parseLcovReport r₁ [])) F = some rec := by
      have hagree := parseLcovLines_get_agree (jsSplit '\n' r₂) "" none
        (parseLcovReport r₁ []) [] F
      rcases hagree with h' | ⟨h1, h2⟩
      · unfold parseLcovReport at h ⊢
        unfold parseLcovReport at h'
        rw [h']
        exact h
      · unfold parseLcovReport at h
        rw [h2] at h
        exact absurd h (by simp [mapGet])
    refine ⟨hmain, ?_⟩
    have hS1inv : ∀ k, keyCount (parseLcovReport r₁ []) k ≤ 1 :=
      hrep r₁ [] (fun k0 => by simp [keyCount])
    have hle : keyCount (parseLcovReport r₂ (parseLcovReport r₁ [])) F ≤ 1 :=
      hrep r₂ _ hS1inv F
    have hge : 1 ≤ keyCount (parseLcovReport r₂ (parseLcovReport r₁ [])) F :=
      keyCount_pos_of_mapGet _ F rec hmain
    omega

/-- Witness for `coverage_store_unique_lww`: two reports for file `a`; the
second parse's record (100 percent) is the one that survives, exactly once. -/
theorem coverage_store_unique_lww_witness :
    mapGet (parseLcovReport "SF:a\nDA:1,1\nend_of_record" []) "a" =
      some (CoverageData.mk "a" 100 [⟨1, true⟩]) ∧
    mapGet (parseLcovReport "SF:a\nDA:1,1\nend_of_record"
        (parseLcovReport "SF:a\nDA:1,0\nend_of_record" [])) "a" =
      some (CoverageData.mk "a" 100 [⟨1, true⟩]) ∧
    keyCount (parseLcovReport "SF:a\nDA:1,1\nend_of_record"
        (parseLcovReport "SF:a\nDA:1,0\nend_of_record" [])) "a" = 1 := by
  have h : mapGet (parseLcovReport "SF:a\nDA:1,1\nend_of_record" []) "a" =
      some (CoverageData.mk "a" 100 [⟨1, true⟩]) := by
    simp +decide [parseLcovReport, parseLcovLines, jsSplit, splitOnChar, lcovStep, strStartsWith,
      strDropN, parseDA, digitsToNat, closeCov, mapSet, mapGet]
  have hc := coverage_store_unique_lww.2 "SF:a\nDA:1,0\nend_of_record"
    "SF:a\nDA:1,1\nend_of_record" "a" (CoverageData.mk "a" 100 [⟨1, true⟩]) h
  exact ⟨h, hc.1, hc.2⟩

/-! ## Claim C9 — a second SF: marker silently discards the open record -/

/-- Claim C9: in the LCOV parser an `SF:` marker opens a fresh record and
discards any in-progress one without emitting it: whenever an `SF:` line
for path `a` is followed by another `SF:` line with no `end_of_record`
in between, and `a` is not the path of any other `SF:` line of the input,
the parse stores no record for `a`. -/
theorem lcov_sf_discards_open_record
    (pre mid post : List String) (a b : String)
    (hAvoid : ∀ l ∈ pre ++ mid ++ post, ¬(strStartsWith l "SF:" = true ∧ strDropN l 3 = a))
    (hMid : ∀ l ∈ mid, l ≠ "end_of_record")
    (hb : b ≠ a) :
    mapGet (parseLcovLines
      (pre ++ [String.mk ('S' :: 'F' :: ':' :: a.data)] ++ mid ++
        [String.mk ('S' :: 'F' :: ':' :: b.data)] ++ post)
      ⟨"", none, []⟩).store a = none := by
  have hpre : ∀ l ∈ pre, ¬(strStartsWith l "SF:" = true ∧ strDropN l 3 = a) :=
    fun l hl => hAvoid l (by simp [hl])
  have hpost : ∀ l ∈ post, ¬(strStartsWith l "SF:" = true ∧ strDropN l 3 = a) :=
    fun l hl => hAvoid l (by simp [hl])
  rw [parseLcovLines_append, parseLcovLines_append, parseLcovLines_append,
    parseLcovLines_append, parseLcovLines_singleton, parseLcovLines_singleton,
    lcovStep_sf, lcovStep_sf]
  have hstA : mapGet (parseLcovLines pre ⟨"", none, []⟩).store a = none :=
    parseLcovLines_avoid a pre "" none [] hpre (by simp [mapGet]) (fun c hc => by cases hc)
  have hmidStore :
      mapGet (parseLcovLines mid
        ⟨a, some ⟨a, 0, []⟩, (parseLcovLines pre ⟨"", none, []⟩).store⟩).store a = none := by
    rw [parseLcovLines_noEor mid _ hMid]
    exact hstA
  exact parseLcovLines_avoid a post b (some ⟨b, 0, []⟩) _ hpost hmidStore (fun c _ => hb)

/-- Witness for `lcov_sf_discards_open_record`: the data collected for `f1`
is lost when `SF:f2` arrives before any `end_of_record`. -/
theorem lcov_sf_discards_open_record_witness :
    (∀ l ∈ ([] ++ ["DA:1,1"] ++ ["DA:2,1", "end_of_record"] : List String),
       ¬(strStartsWith l "SF:" = true ∧ strDropN l 3 = "f1")) ∧
    (∀ l ∈ (["DA:1,1"] : List String), l ≠ "end_of_record") ∧
    ("f2" : String) ≠ "f1" ∧
    mapGet (parseLcovLines
      ([] ++ [String.mk ('S' :: 'F' :: ':' :: "f1".data)] ++ ["DA:1,1"] ++
        [String.mk ('S' :: 'F' :: ':' :: "f2".data)] ++ ["DA:2,1", "end_of_record"])
      ⟨"", none, []⟩).store "f1" = none :=
  ⟨by decide, by decide, by decide,
   lcov_sf_discards_open_record [] ["DA:1,1"] ["DA:2,1", "end_of_record"] "f1" "f2"
     (by decide) (by decide) (by decide)⟩
